import Mathlib

/-!
Verification of the audion-api core: per-session EPD segmentation FSM,
session ring buffer (`BufferManager`), sequenced batch STT dispatch and
in-order delivery (`SohriService` in the canonical revision), and the
PCM→WAV encoder (`AudioEncoderService.pcmToWav`).

Byte buffers are modelled as `List Nat` (one `Nat` per byte); JS numbers
holding chunk indices and byte offsets are modelled as `Int` (all values
that occur are integers).  `Buffer.slice` / `Uint8Array.subarray` index
clamping is modelled exactly as in the ECMAScript specification: a
negative relative index counts from the end of the buffer and both
indices are clamped into `[0, length]`.
-/

namespace Audion

/-- ECMAScript relative-index clamping used by `Buffer.slice(start, end)`:
a negative index `i` is interpreted as `length + i` bounded below by 0;
a non-negative index is bounded above by `length`. -/
def clampIdx (len : Nat) (i : Int) : Nat :=
  if i < 0 then ((len : Int) + i).toNat else min i.toNat len

/-- `buf.slice(s, e)` for a byte buffer: bytes from clamped `s` up to
clamped `e` (empty when the clamped end is not past the clamped start). -/
def bufSlice (l : List Nat) (s e : Int) : List Nat :=
  (l.take (clampIdx l.length e)).drop (clampIdx l.length s)

/-- One-argument `buf.slice(s)`: the end index defaults to the length. -/
def bufSliceFrom (l : List Nat) (s : Int) : List Nat :=
  l.drop (clampIdx l.length s)

/-- `BufferManager` from `src/utils/buffer-manager.ts`: an append-only
byte buffer with a base chunk index (`baseChunk`) naming the chunk that
starts at byte 0. -/
structure BufferManager where
  buffer : List Nat
  baseChunk : Int
deriving DecidableEq, Repr

namespace BufferManager

/-- `chunkSize = 1600` samples (`16 kHz · 0.1 s`); bytes per chunk are
`chunkSize * 2` (16-bit samples). -/
def chunkSize : Int := 1600

/-- `new BufferManager()`: empty buffer, `baseChunk = 0`. -/
def mkEmpty : BufferManager := ⟨[], 0⟩

/-- `append(chunk)`: concatenate to the tail; `baseChunk` unchanged. -/
def append (bm : BufferManager) (chunk : List Nat) : BufferManager :=
  { bm with buffer := bm.buffer ++ chunk }

/-- `readRange(start, end)`: slice the buffer at byte offsets
`(start - baseChunk) * chunkSize * 2` and `(end - baseChunk) * chunkSize * 2`
(then copied by `Buffer.from`, which does not change the bytes). -/
def readRange (bm : BufferManager) (s e : Int) : List Nat :=
  bufSlice bm.buffer ((s - bm.baseChunk) * chunkSize * 2)
    ((e - bm.baseChunk) * chunkSize * 2)

/-- `truncateUntil(chunk)`: drop the bytes before
`(chunk - baseChunk) * chunkSize * 2` via one-argument `slice`, then set
`baseChunk := chunk` unconditionally. -/
def truncateUntil (bm : BufferManager) (c : Int) : BufferManager :=
  { buffer := bufSliceFrom bm.buffer ((c - bm.baseChunk) * chunkSize * 2),
    baseChunk := c }

end BufferManager

lemma clampIdx_zero (len : Nat) : clampIdx len 0 = 0 := by
  simp [clampIdx]

lemma bufSliceFrom_zero (l : List Nat) : bufSliceFrom l 0 = l := by
  simp [bufSliceFrom, clampIdx_zero]

lemma clampIdx_le (len : Nat) (i : Int) : clampIdx len i ≤ len := by
  unfold clampIdx
  split
  · omega
  · omega

lemma bufSlice_length (l : List Nat) (s e : Int) :
    (bufSlice l s e).length = min (clampIdx l.length e) l.length - clampIdx l.length s := by
  simp [bufSlice, List.length_drop, List.length_take]

lemma bufSlice_length_sub (l : List Nat) (s e : Int) :
    (bufSlice l s e).length = clampIdx l.length e - clampIdx l.length s := by
  rw [bufSlice_length, Nat.min_eq_left (clampIdx_le l.length e)]

/-- A concrete reachable buffer state with `baseChunk = 2` and three bytes:
`new BufferManager()`, `truncateUntil(2)` (on the empty buffer), then
`append([1,2,3])`. -/
def exBm : BufferManager := (BufferManager.mkEmpty.truncateUntil 2).append [1, 2, 3]

/-- A concrete reachable buffer state with `baseChunk = 1` and 3203 bytes:
`truncateUntil(1)` on the empty buffer, then a 3203-byte append. -/
def exBm9 : BufferManager :=
  (BufferManager.mkEmpty.truncateUntil 1).append (List.replicate 3200 7 ++ [1, 2, 3])

/-- C6 counterexample: on a buffer with `baseChunk = 2`, `readRange(0, 3)`
(start chunk below `base_chunk`) does not fail: it returns the three
buffered bytes.  There is no error path in `readRange` at all — `slice`
clamps every offset — so the claimed failure signal does not exist. -/
theorem c6_counterexample :
    exBm.baseChunk = 2 ∧ exBm.readRange 0 3 = [1, 2, 3] := by
  decide

/-- C6 amended: `readRange(s, e)` with `s` below `base_chunk` returns a
byte buffer instead of signalling an error; when the negative start
offset reaches at or below the start of the stored bytes
(`(base_chunk − s) · 3200 ≥ length`), the clamp sends it to 0 and the
caller receives bytes from the head of the stored buffer. -/
theorem c6_amended_readRange_below_base (bm : BufferManager) (s e : Int)
    (hs : s < bm.baseChunk)
    (hfar : (bm.baseChunk - s) * BufferManager.chunkSize * 2 ≥ (bm.buffer.length : Int)) :
    bm.readRange s e =
      bm.buffer.take (clampIdx bm.buffer.length
        ((e - bm.baseChunk) * BufferManager.chunkSize * 2)) := by
  unfold BufferManager.readRange bufSlice
  have hneg : (s - bm.baseChunk) * BufferManager.chunkSize * 2 < 0 := by
    simp only [BufferManager.chunkSize] at *
    omega
  have h0 : clampIdx bm.buffer.length ((s - bm.baseChunk) * BufferManager.chunkSize * 2) = 0 := by
    unfold clampIdx
    rw [if_pos hneg]
    simp only [BufferManager.chunkSize] at *
    omega
  rw [h0, List.drop_zero]

/-- C6 amended, witness at `exBm`, `s = 0 < base_chunk = 2`, `e = 3`. -/
theorem c6_amended_witness :
    ((0 : Int) < exBm.baseChunk
      ∧ (exBm.baseChunk - 0) * BufferManager.chunkSize * 2 ≥ (exBm.buffer.length : Int))
    ∧ exBm.readRange 0 3 =
        exBm.buffer.take (clampIdx exBm.buffer.length
          ((3 - exBm.baseChunk) * BufferManager.chunkSize * 2)) :=
  ⟨⟨by decide, by decide⟩, c6_amended_readRange_below_base exBm 0 3 (by decide) (by decide)⟩

/-- C7 counterexample: with `baseChunk = 2`, calling `truncateUntil(1)`
(argument `c ≤ base_chunk`) is not a no-op: it sets `base_chunk := 1`,
moving the base backwards, contradicting both the no-op claim and the
monotonicity claim. -/
theorem c7_counterexample :
    exBm.baseChunk = 2 ∧ (exBm.truncateUntil 1).baseChunk = 1
    ∧ ¬ exBm.baseChunk ≤ (exBm.truncateUntil 1).baseChunk := by
  decide

/-- C7 amended: `truncateUntil(c)` with `c` equal to `base_chunk` is a
no-op (bytes and base unchanged), and along any sequence of calls whose
argument is at least the current `base_chunk`, the base is set to the
argument and never decreases; a call with `c < base_chunk`, however,
moves `base_chunk` backwards (see the counterexample). -/
theorem c7_amended_truncate :
    (∀ bm : BufferManager, bm.truncateUntil bm.baseChunk = bm)
    ∧ (∀ (bm : BufferManager) (c : Int), bm.baseChunk ≤ c →
        (bm.truncateUntil c).baseChunk = c
        ∧ bm.baseChunk ≤ (bm.truncateUntil c).baseChunk
        ∧ (bm.truncateUntil c).buffer =
            bm.buffer.drop (clampIdx bm.buffer.length
              ((c - bm.baseChunk) * BufferManager.chunkSize * 2))) := by
  constructor
  · intro bm
    cases bm with
    | mk buf base =>
      simp [BufferManager.truncateUntil, bufSliceFrom_zero]
  · intro bm c h
    exact ⟨rfl, by simpa [BufferManager.truncateUntil] using h, rfl⟩

/-- C7 amended, witness at `exBm` (`base_chunk = 2`) and `c = 5`. -/
theorem c7_amended_witness :
    exBm.baseChunk ≤ 5
    ∧ ((exBm.truncateUntil 5).baseChunk = 5
        ∧ exBm.baseChunk ≤ (exBm.truncateUntil 5).baseChunk
        ∧ (exBm.truncateUntil 5).buffer =
            exBm.buffer.drop (clampIdx exBm.buffer.length
              ((5 - exBm.baseChunk) * BufferManager.chunkSize * 2))) :=
  ⟨by decide, c7_amended_truncate.2 exBm 5 (by decide)⟩

/-- C9: `readRange(s, e)` is total — for every state and every `s`, `e`
it returns a byte list (there is no failure path): the result is never
longer than the stored bytes, for `s ≤ e` it is at most `(e−s)·3200`
bytes (out-of-range portions are clamped away), and when
`s < base_chunk` with the negative byte offset still inside the buffer,
the offset is interpreted from the end of the buffer, yielding tail
bytes rather than an error. -/
theorem c9_readRange_total (bm : BufferManager) (s e : Int) :
    (bm.readRange s e).length ≤ bm.buffer.length
    ∧ (s ≤ e → (bm.readRange s e).length ≤ (e - s).toNat * 3200)
    ∧ (s < bm.baseChunk →
        0 ≤ (bm.buffer.length : Int) + (s - bm.baseChunk) * BufferManager.chunkSize * 2 →
        bm.readRange s e =
          (bm.buffer.take (clampIdx bm.buffer.length
            ((e - bm.baseChunk) * BufferManager.chunkSize * 2))).drop
            ((bm.buffer.length : Int) + (s - bm.baseChunk) * BufferManager.chunkSize * 2).toNat) := by
  refine ⟨?_, ?_, ?_⟩
  · unfold BufferManager.readRange
    rw [bufSlice_length_sub]
    have := clampIdx_le bm.buffer.length ((e - bm.baseChunk) * BufferManager.chunkSize * 2)
    omega
  · intro hse
    unfold BufferManager.readRange
    rw [bufSlice_length_sub]
    unfold clampIdx
    simp only [BufferManager.chunkSize]
    split <;> split <;> omega
  · intro hs hge
    have hneg : (s - bm.baseChunk) * BufferManager.chunkSize * 2 < 0 := by
      simp only [BufferManager.chunkSize] at *
      omega
    have h0 : clampIdx bm.buffer.length ((s - bm.baseChunk) * BufferManager.chunkSize * 2)
        = ((bm.buffer.length : Int) + (s - bm.baseChunk) * BufferManager.chunkSize * 2).toNat := by
      unfold clampIdx
      rw [if_pos hneg]
    unfold BufferManager.readRange bufSlice
    rw [h0]

/-- C9, witness at `exBm9` (3203 bytes, `base_chunk = 1`), `s = 0`,
`e = 2`: the negative start offset `−3200` lands 3 bytes before the end
of the buffer, so the caller receives tail bytes. -/
lemma exBm9_buffer : exBm9.buffer = List.replicate 3200 7 ++ [1, 2, 3] := rfl

lemma exBm9_buffer_length : exBm9.buffer.length = 3203 := by
  rw [exBm9_buffer, List.length_append, List.length_replicate]
  rfl

lemma exBm9_baseChunk : exBm9.baseChunk = 1 := rfl

theorem c9_witness :
    ((0 : Int) ≤ 2 ∧ (0 : Int) < exBm9.baseChunk
      ∧ 0 ≤ (exBm9.buffer.length : Int) + (0 - exBm9.baseChunk) * BufferManager.chunkSize * 2)
    ∧ (exBm9.readRange 0 2).length ≤ exBm9.buffer.length
    ∧ (exBm9.readRange 0 2).length ≤ ((2 : Int) - 0).toNat * 3200
    ∧ exBm9.readRange 0 2 =
        (exBm9.buffer.take (clampIdx exBm9.buffer.length
          ((2 - exBm9.baseChunk) * BufferManager.chunkSize * 2))).drop
          ((exBm9.buffer.length : Int) + (0 - exBm9.baseChunk) * BufferManager.chunkSize * 2).toNat := by
  have h1 : (0 : Int) < exBm9.baseChunk := by rw [exBm9_baseChunk]; norm_num
  have h2 : (0 : Int) ≤ (exBm9.buffer.length : Int)
      + (0 - exBm9.baseChunk) * BufferManager.chunkSize * 2 := by
    rw [exBm9_buffer_length, exBm9_baseChunk]
    norm_num [BufferManager.chunkSize]
  exact ⟨⟨by norm_num, h1, h2⟩,
    (c9_readRange_total exBm9 0 2).1,
    (c9_readRange_total exBm9 0 2).2.1 (by norm_num),
    (c9_readRange_total exBm9 0 2).2.2 h1 h2⟩

/-! ## Segmentation FSM (`SohriService.handleEpdMessage`, canonical revision) -/

/-- EPD status codes (`AudioStreamResponseStatus`). -/
inductive EpdStatus
  | waiting
  | speech
  | pause
  | utterEnd
  | timeout
  | maxTimeout
  | noSpeech
deriving DecidableEq, Repr

/-- Per-session FSM state (`StreamState`): indices are JS numbers holding
integers, modelled as `Int`. -/
structure StreamState where
  start : Int
  «end» : Int
  flag : Bool
  recognized : Bool
  lastChunk : Int
  nChunks : Int
deriving DecidableEq, Repr

/-- Initial state installed at TURN_START. -/
def initStream : StreamState := ⟨0, 0, false, false, 0, 0⟩

/-- One STT work item produced by `enqueueStt`: a snapshot `{ ...state }`
of the stream state taken at the enqueue point, plus the `end` argument
(`0` partial, `1` final); the sequence number is assigned later by the
per-session counter. -/
structure SttItem where
  state : StreamState
  finalFlag : Nat
deriving DecidableEq, Repr

/-- `resetState`: the next utterance starts at the previous `end`;
`nChunks` is never reset. -/
def resetState (prev : StreamState) : StreamState :=
  ⟨prev.«end», prev.«end», false, false, prev.nChunks, prev.nChunks⟩

/-- `handleEpdMessage`, one event: `nChunks` is incremented first, then
the status branches run; returns the new state and the work items
enqueued (in order).  Mirrors the source line by line, including the
placement of the `recognized` updates relative to the snapshots. -/
def handleEpd (st0 : StreamState) (ev : EpdStatus) : StreamState × List SttItem :=
  let st := { st0 with nChunks := st0.nChunks + 1 }
  match ev with
  | .speech =>
    if st.flag = false then
      let st1 : StreamState := { st with
        flag := true,
        start := if st.nChunks ≥ 4 then st.nChunks - 4 else 0,
        lastChunk := st.nChunks }
      ({ st1 with recognized := false }, [])
    else
      if st.nChunks - st.lastChunk ≥ 5 then
        let st1 : StreamState := { st with «end» := st.nChunks }
        if st1.«end» - st1.start > 1 then
          let st2 : StreamState := { st1 with lastChunk := st1.nChunks }
          ({ st2 with recognized := false }, [⟨st2, 0⟩])
        else ({ st1 with recognized := false }, [])
      else ({ st with recognized := false }, [])
  | .pause =>
    if st.recognized = false then
      if st.nChunks - st.start > 50 then
        let st1 : StreamState := { st with «end» := st.nChunks }
        if st1.«end» - st1.start > 1 then
          (resetState st1, [⟨st1, 1⟩])
        else (st1, [])
      else
        let st1 : StreamState := { st with «end» := st.nChunks, lastChunk := st.nChunks }
        if st1.«end» - st1.start > 1 then
          ({ st1 with recognized := true }, [⟨st1, 0⟩])
        else (st1, [])
    else (st, [])
  | .utterEnd =>
    if st.flag = true then
      let st1 : StreamState := { st with «end» := st.nChunks }
      if st1.«end» - st1.start > 1 then
        (resetState st1, [⟨st1, 1⟩])
      else (st1, [])
    else (st, [])
  | _ => (st, [])

/-- Run the FSM over a trace of EPD events, collecting all enqueued
work items in order. -/
def runFsm : StreamState → List EpdStatus → StreamState × List SttItem
  | st, [] => (st, [])
  | st, ev :: rest =>
    let s1 := handleEpd st ev
    let s2 := runFsm s1.1 rest
    (s2.1, s1.2 ++ s2.2)

/-- TURN_END leftover-final step (`handleEvent`, case 13): if
`nChunks − start > 1`, set `end := nChunks` and enqueue one final. -/
def leftoverFinal (st : StreamState) : StreamState × List SttItem :=
  if st.nChunks - st.start > 1 then
    let st1 : StreamState := { st with «end» := st.nChunks }
    (st1, [⟨st1, 1⟩])
  else (st, [])

/-- Invariant of the FSM state that the code actually maintains:
`start` and `end` each stay within `[0, nChunks]` (but not necessarily
`start ≤ end`; see the C3 counterexample). -/
def FsmInv (st : StreamState) : Prop :=
  0 ≤ st.start ∧ st.start ≤ st.nChunks ∧ 0 ≤ st.«end» ∧ st.«end» ≤ st.nChunks

lemma fsmInv_step (st : StreamState) (ev : EpdStatus) (h : FsmInv st) :
    FsmInv (handleEpd st ev).1 := by
  obtain ⟨h1, h2, h3, h4⟩ := h
  cases ev <;>
    simp only [handleEpd, resetState, FsmInv] <;>
    (repeat' split) <;>
    simp_all <;>
    omega

lemma runFsm_inv (trace : List EpdStatus) : ∀ st : StreamState, FsmInv st →
    FsmInv (runFsm st trace).1 := by
  induction trace with
  | nil => intro st h; exact h
  | cons ev rest ih =>
    intro st h
    exact ih _ (fsmInv_step st ev h)

/-- C3 counterexample: after four EPD_WAITING events and one EPD_SPEECH
(from the initial state), the first-speech rule sets
`start := nChunks − 4 = 1` while `end` is still `0`, so
`start ≤ end` fails after that event. -/
theorem c3_counterexample :
    ((runFsm initStream [EpdStatus.waiting, EpdStatus.waiting, EpdStatus.waiting,
        EpdStatus.waiting, EpdStatus.speech]).1).start = 1
    ∧ ((runFsm initStream [EpdStatus.waiting, EpdStatus.waiting, EpdStatus.waiting,
        EpdStatus.waiting, EpdStatus.speech]).1).«end» = 0
    ∧ ¬ ((runFsm initStream [EpdStatus.waiting, EpdStatus.waiting, EpdStatus.waiting,
        EpdStatus.waiting, EpdStatus.speech]).1).start
        ≤ ((runFsm initStream [EpdStatus.waiting, EpdStatus.waiting, EpdStatus.waiting,
          EpdStatus.waiting, EpdStatus.speech]).1).«end» := by
  decide

/-- C3 amended: for every trace of EPD status events processed by
`handleEpdMessage` (including the resets triggered by final emissions),
the state satisfies `0 ≤ start ≤ n_chunks` and `0 ≤ end ≤ n_chunks`
after every event; `start ≤ end` can fail transiently after a first
EPD_SPEECH whose pre-roll start lies past a stale `end` (see the
counterexample). -/
theorem c3_amended_invariant (trace : List EpdStatus) :
    0 ≤ ((runFsm initStream trace).1).start
    ∧ ((runFsm initStream trace).1).start ≤ ((runFsm initStream trace).1).nChunks
    ∧ 0 ≤ ((runFsm initStream trace).1).«end»
    ∧ ((runFsm initStream trace).1).«end» ≤ ((runFsm initStream trace).1).nChunks :=
  runFsm_inv trace initStream ⟨le_refl 0, le_refl 0, le_refl 0, le_refl 0⟩

lemma runFsm_quiet (trace : List EpdStatus) : ∀ st : StreamState,
    (∀ ev ∈ trace, ev ≠ EpdStatus.speech ∧ ev ≠ EpdStatus.pause) → st.flag = false →
    runFsm st trace = ({ st with nChunks := st.nChunks + trace.length }, []) := by
  induction trace with
  | nil =>
    intro st _ _
    cases st
    simp [runFsm]
  | cons ev rest ih =>
    intro st h hf
    have hev := h ev (List.mem_cons_self ev rest)
    have hstep : handleEpd st ev = ({ st with nChunks := st.nChunks + 1 }, []) := by
      cases ev <;> simp_all [handleEpd]
    have hrest := ih { st with nChunks := st.nChunks + 1 }
      (fun e he => h e (List.mem_cons_of_mem ev he)) (by simp [hf])
    simp only [runFsm, hstep, hrest, List.append_nil, List.nil_append, List.length_cons,
      Prod.mk.injEq, StreamState.mk.injEq, and_true, true_and]
    push_cast
    ring

/-- C4 counterexample: a session with no EPD_SPEECH can still enqueue
STT work.  Two EPD_PAUSE events enqueue one partial (the short-pause
branch does not check `flag`), and even a speech-free, pause-free trace
of two EPD_WAITING events makes the TURN_END leftover step enqueue one
final (`nChunks − start = 2 > 1`). -/
theorem c4_counterexample :
    (runFsm initStream [EpdStatus.pause, EpdStatus.pause]).2
      = [⟨⟨0, 2, false, false, 2, 2⟩, 0⟩]
    ∧ (leftoverFinal (runFsm initStream [EpdStatus.waiting, EpdStatus.waiting]).1).2
      = [⟨⟨0, 2, false, false, 0, 2⟩, 1⟩] := by
  decide

/-- C4 amended: for a session whose EPD trace contains neither
EPD_SPEECH nor EPD_PAUSE events, zero STT work items are enqueued
during the trace; the TURN_END leftover step then enqueues zero items
exactly when the trace has at most one event — with two or more events
it enqueues one final despite the absence of speech (and with
EPD_PAUSE allowed, items can be enqueued even during the trace). -/
theorem c4_amended_no_speech (trace : List EpdStatus)
    (h : ∀ ev ∈ trace, ev ≠ EpdStatus.speech ∧ ev ≠ EpdStatus.pause) :
    (runFsm initStream trace).2 = []
    ∧ ((leftoverFinal (runFsm initStream trace).1).2 = [] ↔ trace.length ≤ 1) := by
  have hq := runFsm_quiet trace initStream h rfl
  rw [hq]
  refine ⟨rfl, ?_⟩
  simp only [leftoverFinal, initStream]
  split_ifs with hc
  · simp only [List.cons_ne_nil, false_iff]
    omega
  · simp only [eq_self_iff_true, true_iff]
    omega

/-- C4 amended, witness: the trace `[WAITING, END, TIMEOUT]` has no
SPEECH and no PAUSE; it enqueues nothing during the trace, and since it
has three events the leftover step does enqueue (the iff is settled on
its negative side). -/
theorem c4_amended_witness :
    (∀ ev ∈ [EpdStatus.waiting, EpdStatus.utterEnd, EpdStatus.timeout],
        ev ≠ EpdStatus.speech ∧ ev ≠ EpdStatus.pause)
    ∧ (runFsm initStream [EpdStatus.waiting, EpdStatus.utterEnd, EpdStatus.timeout]).2 = []
    ∧ ((leftoverFinal (runFsm initStream
          [EpdStatus.waiting, EpdStatus.utterEnd, EpdStatus.timeout]).1).2 = []
        ↔ ([EpdStatus.waiting, EpdStatus.utterEnd, EpdStatus.timeout].length ≤ 1)) :=
  ⟨by decide,
    (c4_amended_no_speech _ (by decide)).1,
    (c4_amended_no_speech _ (by decide)).2⟩

/-! ## Delivery reassembler (`bufferAndTryDeliver` / `tryDeliver`) -/

/-- JS `Map.set`: overwrite the entry with the same key if present,
otherwise append a fresh entry. -/
def mapSet {κ α : Type} [DecidableEq κ] : List (κ × α) → κ → α → List (κ × α)
  | [], k, v => [(k, v)]
  | (k', v') :: rest, k, v =>
    if k' = k then (k, v) :: rest else (k', v') :: mapSet rest k v

/-- JS `Map.get`. -/
def mapGet? {κ α : Type} [DecidableEq κ] : List (κ × α) → κ → Option α
  | [], _ => Option.none
  | (k', v') :: rest, k => if k' = k then some v' else mapGet? rest k

/-- JS `Map.delete`: removes the entry with the given key. -/
def mapDelete {κ α : Type} [DecidableEq κ] : List (κ × α) → κ → List (κ × α)
  | [], _ => []
  | (k', v') :: rest, k => if k' = k then rest else (k', v') :: mapDelete rest k

/-- Per-session delivery state: `expectedSeq` and the
`pendingResults` map from sequence number to buffered result. -/
structure DeliveryState (α : Type) where
  expectedSeq : Nat
  pending : List (Nat × α)
deriving DecidableEq, Repr

/-- Fresh per-session delivery state installed at TURN_START. -/
def initDelivery {α : Type} : DeliveryState α := ⟨0, []⟩

/-- The `while (pending.has(expected))` loop of `tryDeliver`: emit the
expected entry, delete it, increment `expected`, repeat.  Fuel bounds
the iterations; `pending.length` is always enough fuel because every
iteration deletes one present key, so the fuelled loop computes exactly
what the source loop does.  Returns (new `expectedSeq`, new pending,
emissions in order). -/
def tryDeliverLoop {α : Type} : Nat → Nat → List (Nat × α) → Nat × List (Nat × α) × List (Nat × α)
  | 0, exp, p => (exp, p, [])
  | fuel + 1, exp, p =>
    match mapGet? p exp with
    | Option.none => (exp, p, [])
    | some r =>
      let t := tryDeliverLoop fuel (exp + 1) (mapDelete p exp)
      (t.1, t.2.1, (exp, r) :: t.2.2)

/-- `tryDeliver(sessionId)`: if the session has no client socket
(`clientPresent = false`), return at once without touching the state or
emitting; otherwise run the release loop. -/
def tryDeliver {α : Type} (clientPresent : Bool) (st : DeliveryState α) :
    DeliveryState α × List (Nat × α) :=
  if clientPresent then
    let t := tryDeliverLoop st.pending.length st.expectedSeq st.pending
    (⟨t.1, t.2.1⟩, t.2.2)
  else (st, [])

/-- `bufferAndTryDeliver(sessionId, seq, result, ...)`: insert into the
pending map, then attempt delivery. -/
def bufferAndTryDeliver {α : Type} (clientPresent : Bool) (seq : Nat) (r : α)
    (st : DeliveryState α) : DeliveryState α × List (Nat × α) :=
  tryDeliver clientPresent { st with pending := mapSet st.pending seq r }

/-- Run the reassembler over a list of arrivals
`(clientPresent, sequence, result)` in arrival order, collecting all
emissions in order. -/
def runDelivery {α : Type} : DeliveryState α → List (Bool × Nat × α) →
    DeliveryState α × List (Nat × α)
  | st, [] => (st, [])
  | st, (pres, seq, r) :: rest =>
    let s1 := bufferAndTryDeliver pres seq r st
    let s2 := runDelivery s1.1 rest
    (s2.1, s1.2 ++ s2.2)

/-- `waitUntilPendingEmpty(sessionId)` during the TURN_END drain: polls
`pending.size === 0` every 100 ms with no deadline; after the session
flush no further results arrive, so the pending map never changes
between polls.  `true` means the wait returned (pending observed
empty); `false` means it was still looping after the given number of
polls. -/
def waitUntilPendingEmpty {α : Type} : Nat → List (Nat × α) → Bool
  | _, [] => true
  | 0, _ :: _ => false
  | polls + 1, x :: l => waitUntilPendingEmpty polls (x :: l)

lemma waitUntilPendingEmpty_cons {α : Type} (polls : Nat) (x : Nat × α) (l : List (Nat × α)) :
    waitUntilPendingEmpty polls (x :: l) = false := by
  induction polls with
  | zero => rfl
  | succ n ih => simpa [waitUntilPendingEmpty] using ih

lemma tryDeliverLoop_spec {α : Type} (fuel : Nat) : ∀ (exp : Nat) (p : List (Nat × α)),
    ((tryDeliverLoop fuel exp p).2.2).map Prod.fst
      = List.range' exp ((tryDeliverLoop fuel exp p).2.2).length
    ∧ (tryDeliverLoop fuel exp p).1 = exp + ((tryDeliverLoop fuel exp p).2.2).length := by
  induction fuel with
  | zero => intro exp p; simp [tryDeliverLoop]
  | succ n ih =>
    intro exp p
    simp only [tryDeliverLoop]
    cases hget : mapGet? p exp with
    | none => simp
    | some r =>
      have h := ih (exp + 1) (mapDelete p exp)
      simp only [List.map_cons, List.length_cons]
      constructor
      · rw [h.1, List.range'_succ exp _ 1]
      · rw [h.2]
        omega

lemma runDelivery_spec {α : Type} (l : List (Bool × Nat × α)) : ∀ st : DeliveryState α,
    ((runDelivery st l).2).map Prod.fst
      = List.range' st.expectedSeq ((runDelivery st l).2).length
    ∧ (runDelivery st l).1.expectedSeq = st.expectedSeq + ((runDelivery st l).2).length := by
  induction l with
  | nil => intro st; simp [runDelivery]
  | cons a rest ih =>
    intro st
    obtain ⟨pres, seq, r⟩ := a
    simp only [runDelivery]
    have h1 : ((bufferAndTryDeliver pres seq r st).2).map Prod.fst
        = List.range' st.expectedSeq ((bufferAndTryDeliver pres seq r st).2).length
        ∧ (bufferAndTryDeliver pres seq r st).1.expectedSeq
          = st.expectedSeq + ((bufferAndTryDeliver pres seq r st).2).length := by
      unfold bufferAndTryDeliver tryDeliver
      cases pres
      · simp
      · simp only [if_pos]
        have := tryDeliverLoop_spec (mapSet st.pending seq r).length st.expectedSeq
          (mapSet st.pending seq r)
        simpa using this
    obtain ⟨hm1, he1⟩ := h1
    obtain ⟨hm2, he2⟩ := ih (bufferAndTryDeliver pres seq r st).1
    constructor
    · rw [List.map_append, hm1, hm2, he1, List.length_append]
      have hx : List.range' st.expectedSeq ((bufferAndTryDeliver pres seq r st).2).length
            ++ List.range' (st.expectedSeq + ((bufferAndTryDeliver pres seq r st).2).length)
              ((runDelivery (bufferAndTryDeliver pres seq r st).1 rest).2).length
          = List.range' st.expectedSeq (((bufferAndTryDeliver pres seq r st).2).length
              + ((runDelivery (bufferAndTryDeliver pres seq r st).1 rest).2).length) := by
        simp [Nat.add_comm, List.range'_append]
      exact hx
    · rw [he2, he1, List.length_append]
      omega

/-- C1: for every session and every arrival order of (sequence, result)
pairs handed to `bufferAndTryDeliver` (with the client present or not
at each arrival), the sequence numbers emitted to the client sink are,
in emission order, exactly `0, 1, 2, …, expectedSeq − 1`: strictly
ascending and consecutive from 0, each emitted only after every lower
sequence has been emitted, and none emitted twice. -/
theorem c1_delivery_in_order {α : Type} (arrivals : List (Bool × Nat × α)) :
    ((runDelivery (initDelivery : DeliveryState α) arrivals).2).map Prod.fst
      = List.range ((runDelivery (initDelivery : DeliveryState α) arrivals).1.expectedSeq) := by
  have h := runDelivery_spec arrivals (initDelivery : DeliveryState α)
  rw [h.1, List.range_eq_range']
  have h2 := h.2
  simp only [initDelivery] at h2 ⊢
  rw [h2]
  simp

/-- C10: when the session has no entry in `clientMap`, `tryDeliver`
returns without emitting and without touching `pending` or
`expectedSeq`; consequently over any run of arrivals with the client
absent throughout, nothing is ever emitted, `expectedSeq` stays put,
and every buffered result is retained in the pending map. -/
theorem c10_tryDeliver_no_client :
    (∀ (α : Type) (st : DeliveryState α), tryDeliver false st = (st, []))
    ∧ (∀ (α : Type) (st : DeliveryState α) (inserts : List (Nat × α)),
        runDelivery st (inserts.map (fun x => (false, x.1, x.2)))
          = ({ st with pending := inserts.foldl (fun p x => mapSet p x.1 x.2) st.pending }, [])) := by
  constructor
  · intro α st
    rfl
  · intro α st inserts
    induction inserts generalizing st with
    | nil =>
      cases st
      simp [runDelivery]
    | cons x rest ih =>
      simp only [List.map_cons, runDelivery, List.foldl_cons]
      have hstep : bufferAndTryDeliver false x.1 x.2 st
          = ({ st with pending := mapSet st.pending x.1 x.2 }, []) := rfl
      rw [hstep]
      rw [ih { st with pending := mapSet st.pending x.1 x.2 }]
      simp

/-- C2, evidence for the code bug: scenario of spec §8 item 6 — seq 0
delivered, the batch carrying seq 1 dropped, seq 2 buffered.  After the
trace, `pending_results = {2 ↦ r}` with `expected_seq = 1`; since the
skip timer is commented out and `waitUntilPendingEmpty` has no
deadline, the drain poll never returns no matter how many polls
elapse, so `expected_seq` is never advanced past the hole and the
`deliveryEnd` that follows the wait is never emitted. -/
theorem c2_drain_never_completes_on_hole :
    ((runDelivery (initDelivery : DeliveryState Nat)
        [(true, 0, 100), (true, 2, 102)]).2).map Prod.fst = [0]
    ∧ (runDelivery (initDelivery : DeliveryState Nat)
        [(true, 0, 100), (true, 2, 102)]).1.expectedSeq = 1
    ∧ (runDelivery (initDelivery : DeliveryState Nat)
        [(true, 0, 100), (true, 2, 102)]).1.pending = [(2, 102)]
    ∧ ∀ polls : Nat, waitUntilPendingEmpty polls
        (runDelivery (initDelivery : DeliveryState Nat)
          [(true, 0, 100), (true, 2, 102)]).1.pending = false := by
  refine ⟨by decide, by decide, by decide, ?_⟩
  intro polls
  have hp : (runDelivery (initDelivery : DeliveryState Nat)
      [(true, 0, 100), (true, 2, 102)]).1.pending = [(2, 102)] := by decide
  rw [hp]
  exact waitUntilPendingEmpty_cons polls _ _

/-! ## Batch STT dispatch (`processBatchSTT` / `processSttRequestsForSession`) -/

/-- An entry of `sttQueue` (`SttRequest`): per-session sequence number,
session id, the FSM state snapshot captured at enqueue time, and the
final flag (the `end` argument of `enqueueStt`). -/
structure SttRequest where
  sequence : Nat
  sessionId : String
  state : StreamState
  finalFlag : Nat
deriving DecidableEq, Repr

/-- The utterance id used on the wire: the filename stem
`<sessionId>_<start>-<end>` built from the snapshot. -/
def utteranceIdOf (r : SttRequest) : String :=
  r.sessionId ++ "_" ++ toString r.state.start ++ "-" ++ toString r.state.«end»

/-- One element of `sendBatchSpeechResponse`'s result list:
`{ sessionId, result }` where `result.speech.id` is the utterance id
echoed by the STT engine; `payload` stands for the rest of the
recognition result. -/
structure SttResultEntry where
  sessionId : String
  id : String
  payload : Nat
deriving DecidableEq, Repr

/-- A call of `bufferAndTryDeliver` made by the dispatcher: the session,
the sequence paired with the result, and the final flag. -/
structure DeliveryCall where
  sessionId : String
  sequence : Nat
  res : SttResultEntry
  finalFlag : Nat
deriving DecidableEq, Repr

/-- Stable insertion into a sequence-sorted list
(`.sort((a, b) => a.sequence - b.sequence)` is a stable comparison
sort; only the multiset and the ordering matter here). -/
def insertBySeq (r : SttRequest) : List SttRequest → List SttRequest
  | [] => [r]
  | x :: xs => if x.sequence ≤ r.sequence then x :: insertBySeq r xs else r :: x :: xs

/-- Sort a spliced batch ascending by `sequence`. -/
def sortBySeq : List SttRequest → List SttRequest
  | [] => []
  | x :: xs => insertBySeq x (sortBySeq xs)

/-- `processBatchSTT`, association part: the spliced batch is sorted by
sequence, a `reqMap` from utterance id to request is built
(`Map.set`, later entries overwrite), and every returned result is
reassociated through `reqMap.get(result.speech.id)`; results whose id
matches no request are skipped with a warning. -/
def processBatchDeliveries (batch : List SttRequest) (results : List SttResultEntry) :
    List DeliveryCall :=
  let sorted := sortBySeq batch
  let reqMap := sorted.foldl (fun m r => mapSet m (utteranceIdOf r) r) []
  results.filterMap (fun res =>
    (mapGet? reqMap res.id).map (fun req =>
      ⟨res.sessionId, req.sequence, res, req.finalFlag⟩))

/-- `processSttRequestsForSession`, association part: the session's
queued requests are sorted by sequence and spliced to 16, and the i-th
returned result is paired with the i-th request of the batch
(`const req = batch[i]`) — a positional association, not an id-based
one. -/
def flushDeliveries (batch : List SttRequest) (results : List SttResultEntry) :
    List DeliveryCall :=
  let b := (sortBySeq batch).take 16
  (results.zip b).map (fun p => ⟨p.1.sessionId, p.2.sequence, p.1, p.2.finalFlag⟩)

lemma mem_insertBySeq {y r : SttRequest} : ∀ {l : List SttRequest},
    y ∈ insertBySeq r l → y = r ∨ y ∈ l := by
  intro l
  induction l with
  | nil => simp [insertBySeq]
  | cons x xs ih =>
    simp only [insertBySeq]
    split
    · intro h
      rcases List.mem_cons.mp h with h | h
      · exact Or.inr (List.mem_cons.mpr (Or.inl h))
      · rcases ih h with h | h
        · exact Or.inl h
        · exact Or.inr (List.mem_cons.mpr (Or.inr h))
    · intro h
      rcases List.mem_cons.mp h with h | h
      · exact Or.inl h
      · exact Or.inr h

lemma mem_sortBySeq {y : SttRequest} : ∀ {l : List SttRequest},
    y ∈ sortBySeq l → y ∈ l := by
  intro l
  induction l with
  | nil => simp [sortBySeq]
  | cons x xs ih =>
    intro h
    rcases mem_insertBySeq h with h | h
    · simp [h]
    · exact List.mem_cons.mpr (Or.inr (ih h))

lemma mapGet?_mapSet {κ α : Type} [DecidableEq κ] (k k' : κ) (v : α) :
    ∀ m : List (κ × α), mapGet? (mapSet m k' v) k
      = if k' = k then some v else mapGet? m k := by
  intro m
  induction m with
  | nil => simp [mapSet, mapGet?]
  | cons x rest ih =>
    obtain ⟨xk, xv⟩ := x
    by_cases hx : xk = k'
    · subst hx
      simp only [mapSet, if_pos rfl, mapGet?]
      split
      · rfl
      · rfl
    · simp only [mapSet, if_neg hx, mapGet?]
      by_cases hk : xk = k
      · subst hk
        rw [if_pos rfl]
        rw [if_neg (fun h => hx h.symm), if_pos rfl]
      · rw [if_neg hk, ih]
        split
        · rfl
        · rfl

lemma mapGet?_foldl_keyed {κ : Type} [DecidableEq κ] (key : SttRequest → κ) :
    ∀ (l : List SttRequest) (m0 : List (κ × SttRequest)) (k : κ) (v : SttRequest),
    mapGet? (l.foldl (fun m r => mapSet m (key r) r) m0) k = some v →
    (v ∈ l ∧ key v = k) ∨ mapGet? m0 k = some v := by
  intro l
  induction l with
  | nil =>
    intro m0 k v h
    exact Or.inr h
  | cons x rest ih =>
    intro m0 k v h
    simp only [List.foldl_cons] at h
    rcases ih (mapSet m0 (key x) x) k v h with ⟨hm, hk⟩ | hbase
    · exact Or.inl ⟨List.mem_cons.mpr (Or.inr hm), hk⟩
    · rw [mapGet?_mapSet] at hbase
      by_cases hkx : key x = k
      · rw [if_pos hkx] at hbase
        injection hbase with hv
        exact Or.inl ⟨List.mem_cons.mpr (Or.inl hv.symm), hv ▸ hkx⟩
      · rw [if_neg hkx] at hbase
        exact Or.inr hbase

lemma flush_zip_assoc : ∀ (rs : List SttResultEntry) (bs : List SttRequest),
    rs.map SttResultEntry.id = bs.map utteranceIdOf →
    ∀ d ∈ (rs.zip bs).map (fun p =>
        (⟨p.1.sessionId, p.2.sequence, p.1, p.2.finalFlag⟩ : DeliveryCall)),
    ∃ req, req ∈ bs ∧ utteranceIdOf req = d.res.id
      ∧ d.sequence = req.sequence ∧ d.finalFlag = req.finalFlag := by
  intro rs
  induction rs with
  | nil =>
    intro bs _ d hd
    simp [List.zip] at hd
  | cons r rest ih =>
    intro bs hmap d hd
    cases bs with
    | nil => simp at hmap
    | cons q qs =>
      simp only [List.map_cons, List.cons.injEq] at hmap
      obtain ⟨hid, htail⟩ := hmap
      simp only [List.zip_cons_cons, List.map_cons, List.mem_cons] at hd
      rcases hd with hd | hd
      · refine ⟨q, List.mem_cons.mpr (Or.inl rfl), ?_, ?_, ?_⟩
        · rw [hd]
          exact hid.symm
        · rw [hd]
        · rw [hd]
      · obtain ⟨req, hreq, h1, h2, h3⟩ := ih qs htail d hd
        exact ⟨req, List.mem_cons.mpr (Or.inr hreq), h1, h2, h3⟩

/-- Concrete requests and results for the C5 scenario: two work items
of one session with distinct utterance ids, and the engine's results
for them. -/
def exReqA : SttRequest := ⟨0, "s", ⟨0, 10, true, false, 0, 10⟩, 0⟩

/-- Second work item of the C5 scenario (sequence 1, `[12, 20)`). -/
def exReqB : SttRequest := ⟨1, "s", ⟨12, 20, true, false, 0, 20⟩, 1⟩

/-- Result whose `speech.id` names `exReqA`'s utterance. -/
def exResA : SttResultEntry := ⟨"s", "s_0-10", 10⟩

/-- Result whose `speech.id` names `exReqB`'s utterance. -/
def exResB : SttResultEntry := ⟨"s", "s_12-20", 21⟩

/-- C5 counterexample: when the STT engine returns the two results in
reversed order, the TURN_END flush (`processSttRequestsForSession`)
pairs the result for utterance `s_12-20` with sequence 0 — the
work item owning that utterance id has sequence 1, and no request in
the batch justifies the delivered (0, `s_12-20`) pairing — while
`processBatchSTT` on the same input reassociates by id and delivers
the sequences correctly as 1 then 0. -/
theorem c5_counterexample :
    flushDeliveries [exReqA, exReqB] [exResB, exResA]
      = [⟨"s", 0, exResB, 0⟩, ⟨"s", 1, exResA, 1⟩]
    ∧ utteranceIdOf exReqB = exResB.id
    ∧ exReqB.sequence = 1
    ∧ ¬ (∃ req ∈ [exReqA, exReqB], utteranceIdOf req = exResB.id ∧ req.sequence = 0)
    ∧ (processBatchDeliveries [exReqA, exReqB] [exResB, exResA]).map
        DeliveryCall.sequence = [1, 0] := by
  decide

/-- C5 amended: `processBatchSTT` associates every returned result with
its originating work item by utterance id, so its delivered
(sequence, result) pairings are correct for every reordering or subset
of the returned utterances; `processSttRequestsForSession`, by
contrast, pairs the i-th result with the i-th request positionally,
which yields id-correct pairings only when the engine returns exactly
the batch's utterances in the batch's order. -/
theorem c5_amended_association :
    (∀ (batch : List SttRequest) (results : List SttResultEntry),
      ∀ d ∈ processBatchDeliveries batch results,
        ∃ req, req ∈ batch ∧ utteranceIdOf req = d.res.id
          ∧ d.sequence = req.sequence ∧ d.finalFlag = req.finalFlag)
    ∧ (∀ (batch : List SttRequest) (results : List SttResultEntry),
        results.map SttResultEntry.id = ((sortBySeq batch).take 16).map utteranceIdOf →
        ∀ d ∈ flushDeliveries batch results,
          ∃ req, req ∈ batch ∧ utteranceIdOf req = d.res.id
            ∧ d.sequence = req.sequence ∧ d.finalFlag = req.finalFlag) := by
  constructor
  · intro batch results d hd
    simp only [processBatchDeliveries, List.mem_filterMap] at hd
    obtain ⟨res, hres, hsome⟩ := hd
    rw [Option.map_eq_some'] at hsome
    obtain ⟨req, hget, hd⟩ := hsome
    rcases mapGet?_foldl_keyed utteranceIdOf (sortBySeq batch) [] res.id req hget with
      ⟨hmem, hkey⟩ | hnil
    · exact ⟨req, mem_sortBySeq hmem, by rw [← hd]; exact hkey, by rw [← hd], by rw [← hd]⟩
    · simp [mapGet?] at hnil
  · intro batch results hmap d hd
    simp only [flushDeliveries] at hd
    obtain ⟨req, hreq, h1, h2, h3⟩ := flush_zip_assoc results ((sortBySeq batch).take 16) hmap d hd
    exact ⟨req, mem_sortBySeq (List.take_subset 16 _ hreq), h1, h2, h3⟩

/-- C5 amended, witness: with results returned complete and in order,
both paths produce id-correct pairings; instantiated at the concrete
scenario with delivery `(0, s_0-10)` from the dispatcher and
`(1, s_12-20)` from the flush. -/
theorem c5_amended_witness :
    ((⟨"s", 0, exResA, 0⟩ : DeliveryCall)
        ∈ processBatchDeliveries [exReqA, exReqB] [exResA, exResB])
    ∧ ([exResA, exResB].map SttResultEntry.id
        = ((sortBySeq [exReqA, exReqB]).take 16).map utteranceIdOf)
    ∧ ((⟨"s", 1, exResB, 1⟩ : DeliveryCall)
        ∈ flushDeliveries [exReqA, exReqB] [exResA, exResB])
    ∧ (∃ req, req ∈ [exReqA, exReqB]
        ∧ utteranceIdOf req = (⟨"s", 0, exResA, 0⟩ : DeliveryCall).res.id
        ∧ (⟨"s", 0, exResA, 0⟩ : DeliveryCall).sequence = req.sequence
        ∧ (⟨"s", 0, exResA, 0⟩ : DeliveryCall).finalFlag = req.finalFlag)
    ∧ (∃ req, req ∈ [exReqA, exReqB]
        ∧ utteranceIdOf req = (⟨"s", 1, exResB, 1⟩ : DeliveryCall).res.id
        ∧ (⟨"s", 1, exResB, 1⟩ : DeliveryCall).sequence = req.sequence
        ∧ (⟨"s", 1, exResB, 1⟩ : DeliveryCall).finalFlag = req.finalFlag) :=
  ⟨by decide, by decide, by decide,
    c5_amended_association.1 [exReqA, exReqB] [exResA, exResB] _ (by decide),
    c5_amended_association.2 [exReqA, exReqB] [exResA, exResB] (by decide) _ (by decide)⟩

/-! ## PCM → WAV encoding (`AudioEncoderService.pcmToWav`) -/

/-- Little-endian bytes of a 16-bit value (`writeUInt16LE`). -/
def u16le (v : Nat) : List Nat := [v % 256, v / 256 % 256]

/-- Little-endian bytes of a 32-bit value (`writeUInt32LE`). -/
def u32le (v : Nat) : List Nat :=
  [v % 256, v / 256 % 256, v / 65536 % 256, v / 16777216 % 256]

/-- The 44-byte RIFF/WAVE header written field by field by `pcmToWav`:
`RIFF`, file size, `WAVE`, `fmt `, subchunk size 16, audio format 1,
channels, sample rate, byte rate, block align, bits per sample, `data`,
data size — at byte offsets 0, 4, 8, 12, 16, 20, 22, 24, 28, 32, 34,
36, 40 respectively. -/
def wavHeader (fileSize channels sampleRate byteRate blockAlign bitsPerSample dataSize : Nat) :
    List Nat :=
  [82, 73, 70, 70] ++ u32le fileSize ++ [87, 65, 86, 69]
    ++ [102, 109, 116, 32] ++ u32le 16 ++ u16le 1 ++ u16le channels ++ u32le sampleRate
    ++ u32le byteRate ++ u16le blockAlign ++ u16le bitsPerSample
    ++ [100, 97, 116, 97] ++ u32le dataSize

/-- `pcmToWav(pcmBuffer, sampleRate, channels, bitsPerSample)`:
`byteRate = sampleRate·channels·bitsPerSample/8`,
`blockAlign = channels·bitsPerSample/8`, `fileSize = dataSize + 44 − 8`;
the guard models Node's `writeUIntNLE` argument validation, which
throws unless each written value is an integer in range (so the JS
float divisions by 8 must be exact and every field must fit its
width); on success the result is the header followed by the PCM bytes
verbatim. -/
def pcmToWav (pcm : List Nat) (sampleRate channels bitsPerSample : Nat) : Option (List Nat) :=
  if (sampleRate * channels * bitsPerSample) % 8 = 0
      ∧ (channels * bitsPerSample) % 8 = 0
      ∧ sampleRate * channels * bitsPerSample / 8 < 4294967296
      ∧ pcm.length + 44 - 8 < 4294967296
      ∧ pcm.length < 4294967296
      ∧ sampleRate < 4294967296
      ∧ channels < 65536
      ∧ channels * bitsPerSample / 8 < 65536
      ∧ bitsPerSample < 65536 then
    some (wavHeader (pcm.length + 44 - 8) channels sampleRate
      (sampleRate * channels * bitsPerSample / 8) (channels * bitsPerSample / 8)
      bitsPerSample pcm.length ++ pcm)
  else Option.none

/-- Parse a little-endian UInt32 at a byte offset of a buffer
(`readUInt32LE`); 0 when out of range. -/
def readU32 (l : List Nat) (off : Nat) : Nat :=
  match l.drop off with
  | b0 :: b1 :: b2 :: b3 :: _ => b0 + 256 * b1 + 65536 * b2 + 16777216 * b3
  | _ => 0

/-- C8: whenever `pcmToWav(p, sampleRate, channels, bitsPerSample)`
returns a buffer, that buffer is the 44-byte RIFF/WAVE header followed
by `p` verbatim, the byte-rate field at offset 28 parses back to
`sampleRate·channels·bitsPerSample/8`, and the data-chunk-size field
at offset 40 parses back to the length of `p`. -/
theorem c8_pcmToWav_header (pcm : List Nat) (sampleRate channels bitsPerSample : Nat)
    (w : List Nat) (h : pcmToWav pcm sampleRate channels bitsPerSample = some w) :
    w = wavHeader (pcm.length + 44 - 8) channels sampleRate
        (sampleRate * channels * bitsPerSample / 8) (channels * bitsPerSample / 8)
        bitsPerSample pcm.length ++ pcm
    ∧ w.length = 44 + pcm.length
    ∧ w.drop 44 = pcm
    ∧ readU32 w 28 = sampleRate * channels * bitsPerSample / 8
    ∧ readU32 w 40 = pcm.length := by
  unfold pcmToWav at h
  split_ifs at h with hc
  obtain ⟨h1, h2, h3, h4, h5, h6, h7, h8, h9⟩ := hc
  rw [Option.some.injEq] at h
  subst h
  refine ⟨rfl, ?_, ?_, ?_, ?_⟩
  · simp only [wavHeader, u32le, u16le, List.cons_append, List.nil_append, List.append_assoc,
      List.length_cons]
    omega
  · simp only [wavHeader, u32le, u16le, List.cons_append, List.nil_append, List.append_assoc]
    rfl
  · simp only [wavHeader, u32le, u16le, List.cons_append, List.nil_append, List.append_assoc]
    show (sampleRate * channels * bitsPerSample / 8) % 256
        + 256 * (sampleRate * channels * bitsPerSample / 8 / 256 % 256)
        + 65536 * (sampleRate * channels * bitsPerSample / 8 / 65536 % 256)
        + 16777216 * (sampleRate * channels * bitsPerSample / 8 / 16777216 % 256)
      = sampleRate * channels * bitsPerSample / 8
    omega
  · simp only [wavHeader, u32le, u16le, List.cons_append, List.nil_append, List.append_assoc]
    show pcm.length % 256 + 256 * (pcm.length / 256 % 256)
        + 65536 * (pcm.length / 65536 % 256)
        + 16777216 * (pcm.length / 16777216 % 256)
      = pcm.length
    omega

/-- Concrete WAV output for the C8 witness: two PCM bytes at
16 kHz/mono/16-bit; byte rate 32000, block align 2, file size 38. -/
def exWavBytes : List Nat := wavHeader (2 + 44 - 8) 1 16000 32000 2 16 2 ++ [1, 2]

/-- C8, witness at `p = [1, 2]`, 16 kHz, mono, 16-bit. -/
theorem c8_witness :
    pcmToWav [1, 2] 16000 1 16 = some exWavBytes
    ∧ (exWavBytes = wavHeader (([1, 2] : List Nat).length + 44 - 8) 1 16000
          (16000 * 1 * 16 / 8) (1 * 16 / 8) 16 ([1, 2] : List Nat).length ++ [1, 2]
        ∧ exWavBytes.length = 44 + ([1, 2] : List Nat).length
        ∧ exWavBytes.drop 44 = [1, 2]
        ∧ readU32 exWavBytes 28 = 16000 * 1 * 16 / 8
        ∧ readU32 exWavBytes 40 = ([1, 2] : List Nat).length) :=
  ⟨by decide, c8_pcmToWav_header [1, 2] 16000 1 16 exWavBytes (by decide)⟩

end Audion
